import Mathlib

/-!
Verification of the YARN Fair Scheduler configuration engine
(`xml-utils` parse/generate and the `MemStorage` reconciliation store).

The development shallowly embeds the JavaScript/TypeScript source:

* JavaScript numbers are modelled as exact rationals (`JsNum`), kept in
  normalized form by the operations that create them, together with the
  canonical shortest-decimal printer that JS template interpolation uses
  for the finite-decimal values this program manipulates.
* The external `xml2js` library (options `explicitArray: false`) is
  modelled by `xml2jsParse`, covering the element/attribute/text fragment
  of XML that this program reads and writes (no comments, CDATA, entities
  or namespaces; attribute values in double quotes).  Well-formedness is
  relative to this model.
* JavaScript truthiness, `parseFloat`, `parseInt`, `String.prototype.trim`,
  `split(',')` and the resource-pair regular expression are modelled
  explicitly.  A numeric field holding `NaN` is collapsed to "absent"
  (`none`); downstream the source only ever tests such fields for
  truthiness or coerces them with `|| null`, for which `NaN` and absence
  are indistinguishable.
-/

namespace YarnConfig

set_option maxRecDepth 100000

/-! ## JavaScript primitive models -/

/-- JS whitespace (the characters relevant to `\s`, `trim` and XML). -/
def jsWS (c : Char) : Bool :=
  c = ' ' || c = '\n' || c = '\t' || c = '\r' || c = '\x0b' || c = '\x0c'

def dropWS (cs : List Char) : List Char := cs.dropWhile jsWS

def wsOnly (s : String) : Bool := s.toList.all jsWS

/-- JS `String.prototype.trim` (ASCII whitespace suffices here). -/
def jsTrim (s : String) : String :=
  String.mk (((s.toList.dropWhile jsWS).reverse.dropWhile jsWS).reverse)

/-- Value of a decimal digit run. -/
def digitsToNat (ds : List Char) : Nat :=
  ds.foldl (fun a c => a * 10 + (c.toNat - 48)) 0

/-- `'a,b'.split(',')`, as JS does it (`""` splits to `[""]`). -/
def splitCommaAux : List Char → List Char → List String
  | [], cur => [String.mk cur.reverse]
  | c :: r, cur =>
    if c = ',' then String.mk cur.reverse :: splitCommaAux r []
    else splitCommaAux r (c :: cur)

def splitComma (s : String) : List String := splitCommaAux s.toList []

/-- Fuel-based Euclidean gcd; the fuel bound `m + 2` always suffices, and
unlike `Nat.gcd` this definition evaluates inside the kernel. -/
def gcdFuel : Nat → Nat → Nat → Nat
  | 0, _, n => n
  | Nat.succ fu, m, n => if m = 0 then n else gcdFuel fu (n % m) m

def natGcd (m n : Nat) : Nat := gcdFuel (m + 2) m n

/-- Exact-rational model of a JavaScript number.  All values produced by
the embedded code are normalized (`den > 0`, `natGcd |num| den = 1`), so
structural equality coincides with value equality on them. -/
structure JsNum where
  num : Int
  den : Nat
deriving DecidableEq, Repr

/-- Build a normalized `JsNum` from a (numerator, positive denominator) pair. -/
def jsNumMk (n : Int) (d : Nat) : JsNum :=
  let g := natGcd n.natAbs d
  if g = 0 then ⟨0, 1⟩ else ⟨n / (g : Int), d / g⟩

def JsNum.ofInt (n : Int) : JsNum := ⟨n, 1⟩

def jsZero : JsNum := ⟨0, 1⟩

/-- JS value test `x === 0` (and falsiness of the number `x`). -/
def JsNum.isZero (x : JsNum) : Bool := x.num = 0

/-- JS value test `x === 1`. -/
def JsNum.isOne (x : JsNum) : Bool := x.num = (x.den : Int) && x.den ≠ 0

def natDigitsPad (n k : Nat) : String :=
  let s := Nat.repr n
  String.mk (List.replicate (k - s.length) '0') ++ s

def intToString (i : Int) : String :=
  if i < 0 then "-" ++ Nat.repr i.natAbs else Nat.repr i.natAbs

/-- Least `k ≤ 40` with `den ∣ 10 ^ k`: the number of decimal digits
needed for an exact finite-decimal rendering. -/
def decPow (den : Nat) : Option Nat :=
  (List.range 41).find? (fun k => 10 ^ k % den = 0)

/-- JS number-to-string conversion (template interpolation): the shortest
decimal literal, so integral values print without a decimal point. -/
def jsNumToString (x : JsNum) : String :=
  let sgn := if x.num < 0 then "-" else ""
  let n := x.num.natAbs
  match decPow x.den with
  | none => sgn ++ Nat.repr n ++ "/" ++ Nat.repr x.den
  | some k =>
    if k = 0 then sgn ++ Nat.repr (n / x.den)
    else
      let m := n * 10 ^ k / x.den
      sgn ++ Nat.repr (m / 10 ^ k) ++ "." ++ natDigitsPad (m % 10 ^ k) k

/-- Exponent suffix accepted by `parseFloat` (`e`/`E`, optional sign);
an incomplete exponent is ignored, as JS takes the longest valid prefix. -/
def parseExpPart (cs : List Char) : Int :=
  match cs with
  | c :: r =>
    if c = 'e' || c = 'E' then
      let sgnNeg := match r with
        | '-' :: _ => true
        | _ => false
      let r1 := match r with
        | '-' :: r2 => r2
        | '+' :: r2 => r2
        | r2 => r2
      let ds := r1.takeWhile Char.isDigit
      if ds = [] then 0
      else if sgnNeg then -(digitsToNat ds : Int) else (digitsToNat ds : Int)
    else 0
  | [] => 0

/-- JS `parseFloat` (`none` = `NaN`).  Decimal literals only: the source
documents never use `Infinity` or hexadecimal forms. -/
def parseFloatJS (s : String) : Option JsNum :=
  let cs := dropWS s.toList
  let neg := match cs with
    | '-' :: _ => true
    | _ => false
  let cs1 := match cs with
    | '-' :: r => r
    | '+' :: r => r
    | r => r
  let ip := cs1.takeWhile Char.isDigit
  let cs2 := cs1.dropWhile Char.isDigit
  let fp := match cs2 with
    | '.' :: r => r.takeWhile Char.isDigit
    | _ => []
  let cs3 := match cs2 with
    | '.' :: r => r.dropWhile Char.isDigit
    | r => r
  if ip = [] ∧ fp = [] then none
  else
    let e := parseExpPart cs3
    let mant : Nat := digitsToNat ip * 10 ^ fp.length + digitsToNat fp
    let sNum : Int := if neg then -(mant : Int) else (mant : Int)
    some (if e ≥ 0 then jsNumMk (sNum * (10 ^ e.toNat : Nat)) (10 ^ fp.length)
          else jsNumMk sNum (10 ^ fp.length * 10 ^ (-e).toNat))

/-- JS `parseInt` with radix 10 behaviour (`none` = `NaN`); the `0x` hex
autodetection is not modelled, no document field uses it. -/
def parseIntJS (s : String) : Option Int :=
  let cs := dropWS s.toList
  let neg := match cs with
    | '-' :: _ => true
    | _ => false
  let cs1 := match cs with
    | '-' :: r => r
    | '+' :: r => r
    | r => r
  let ds := cs1.takeWhile Char.isDigit
  if ds = [] then none
  else some (if neg then -(digitsToNat ds : Int) else (digitsToNat ds : Int))

/-! ## The `xml2js` model (`parseString` with `explicitArray: false`)

A parsed document is a JavaScript value: a string, an array, or an
object whose keys are `"$"` (attributes), `"_"` (character data) and the
child tag names. -/

inductive JVal where
  | str : String → JVal
  | arr : List JVal → JVal
  | obj : List (String × JVal) → JVal

def lookupKV : List (String × JVal) → String → Option JVal
  | [], _ => none
  | (k', v) :: r, k => if k' = k then some v else lookupKV r k

/-- Property lookup on a JS value (`undefined` on non-objects). -/
def jGet : JVal → String → Option JVal
  | .obj kvs, k => lookupKV kvs k
  | _, _ => none

def jGetOpt (v : Option JVal) (k : String) : Option JVal :=
  match v with
  | some w => jGet w k
  | none => none

/-- JS truthiness of a possibly-undefined value: `undefined` and `""` are
falsy; every object and array (even empty) is truthy. -/
def jTruthy : Option JVal → Bool
  | none => false
  | some (.str s) => s ≠ ""
  | some (.arr _) => true
  | some (.obj _) => true

/-- JS `String(v)` on parsed values (arrays join with `","`). -/
def jStringifyF : Nat → JVal → String
  | _, .str s => s
  | _, .obj _ => "[object Object]"
  | 0, .arr _ => ""
  | Nat.succ fu, .arr l => String.intercalate "," (l.map (jStringifyF fu))

def jStringify (v : JVal) : String := jStringifyF 100 v

/-- `Array.isArray(x) ? x : [x]`. -/
def jToArr : JVal → List JVal
  | .arr l => l
  | x => [x]

/-- `x === 'true'`. -/
def jIsStrTrue : JVal → Bool
  | .str s => s = "true"
  | _ => false

/-- `x === s` for a string literal `s`. -/
def jIsStr (v : Option JVal) (s : String) : Bool :=
  match v with
  | some (.str t) => t = s
  | _ => false

/-- Merge a child element into the accumulated key list the way `xml2js`
does: a repeated tag upgrades the value to an array and appends. -/
def insertKid : List (String × JVal) → String → JVal → List (String × JVal)
  | [], t, v => [(t, v)]
  | (t', v') :: rest, t, v =>
    if t' = t then
      (t', match v' with
           | .arr l => .arr (l ++ [v])
           | x => .arr [x, v]) :: rest
    else (t', v') :: insertKid rest t v

def groupKids (kids : List (String × JVal)) : List (String × JVal) :=
  kids.foldl (fun acc tv => insertKid acc tv.1 tv.2) []

/-- Assemble the JS value of one closed element from its attributes,
child elements (in document order) and character data, following
`xml2js`: whitespace-only character data is dropped, a text-only element
collapses to its string, an empty element becomes `""`. -/
def assembleJVal (attrs : List (String × String)) (kids : List (String × JVal))
    (text : String) : JVal :=
  let textKept : Option String := if wsOnly text then none else some text
  if attrs.isEmpty && kids.isEmpty then
    match textKept with
    | some t => .str t
    | none => .str ""
  else
    .obj ((if attrs.isEmpty then []
           else [("$", JVal.obj (attrs.map (fun kv => (kv.1, JVal.str kv.2))))])
          ++ (match textKept with
              | some t => [("_", JVal.str t)]
              | none => [])
          ++ groupKids kids)

/-- XML name characters (tags and attribute names). -/
def nameChar (c : Char) : Bool :=
  c.isAlphanum || c = '_' || c = '-' || c = ':' || c = '.'

/-- Attribute list of a start tag; stops before `>` or `/>`. -/
def parseAttrsX : Nat → List Char → Except String (List (String × String) × List Char)
  | 0, _ => .error "xml: out of fuel"
  | Nat.succ fu, cs =>
    match cs.dropWhile jsWS with
    | [] => .error "xml: unexpected end inside tag"
    | c :: rest =>
      if c = '>' || c = '/' then .ok ([], c :: rest)
      else if nameChar c then
        let an := (c :: rest).takeWhile nameChar
        match ((c :: rest).dropWhile nameChar).dropWhile jsWS with
        | '=' :: r3 =>
          match r3.dropWhile jsWS with
          | '"' :: r5 =>
            let v := r5.takeWhile (fun d => d ≠ '"')
            match r5.dropWhile (fun d => d ≠ '"') with
            | _ :: r6 =>
              match parseAttrsX fu r6 with
              | .ok (as, r7) => .ok ((String.mk an, String.mk v) :: as, r7)
              | .error e => .error e
            | [] => .error "xml: unterminated attribute value"
          | _ => .error "xml: expected quoted attribute value"
        | _ => .error "xml: attribute without value"
      else .error "xml: unexpected character in tag"

mutual

def parseElemX : Nat → List Char → Except String ((String × JVal) × List Char)
  | 0, _ => .error "xml: out of fuel"
  | Nat.succ fu, cs =>
    let tn := cs.takeWhile nameChar
    if tn.isEmpty then .error "xml: expected element name"
    else
      match parseAttrsX fu (cs.dropWhile nameChar) with
      | .error e => .error e
      | .ok (attrs, r1) =>
        match r1 with
        | '/' :: '>' :: r2 => .ok ((String.mk tn, assembleJVal attrs [] ""), r2)
        | '>' :: r2 =>
          match parseContentX fu (String.mk tn) r2 [] [] with
          | .error e => .error e
          | .ok (kids, text, r3) => .ok ((String.mk tn, assembleJVal attrs kids text), r3)
        | _ => .error "xml: malformed start tag"

def parseContentX : Nat → String → List Char → List (String × JVal) → List Char →
    Except String (List (String × JVal) × String × List Char)
  | 0, _, _, _, _ => .error "xml: out of fuel"
  | Nat.succ fu, tag, cs, kids, text =>
    match cs with
    | [] => .error "xml: unclosed element"
    | '<' :: '/' :: r1 =>
      let cn := r1.takeWhile nameChar
      match (r1.dropWhile nameChar).dropWhile jsWS with
      | '>' :: r2 =>
        if String.mk cn = tag then .ok (kids.reverse, String.mk text.reverse, r2)
        else .error "xml: mismatched end tag"
      | _ => .error "xml: malformed end tag"
    | '<' :: r1 =>
      match parseElemX fu r1 with
      | .error e => .error e
      | .ok (kid, r2) => parseContentX fu tag r2 (kid :: kids) text
    | c :: r1 => parseContentX fu tag r1 kids (c :: text)

end

/-- Skip an XML prolog / processing instruction. -/
def dropPastPI : List Char → Option (List Char)
  | '?' :: '>' :: r => some r
  | _ :: r => dropPastPI r
  | [] => none

/-- Model of `xml2js.parseString(s, { explicitArray: false })`: the
callback's `result` object on success, the parse error otherwise. -/
def xml2jsParse (s : String) : Except String JVal :=
  let cs0 := dropWS s.toList
  let cs1 := match cs0 with
    | '<' :: '?' :: r => dropPastPI r
    | other => some other
  match cs1 with
  | none => .error "xml: unterminated processing instruction"
  | some cs2 =>
    match dropWS cs2 with
    | '<' :: r =>
      match parseElemX (2 * s.length + 16) r with
      | .error e => .error e
      | .ok (tv, rest) =>
        if dropWS rest = [] then .ok (JVal.obj [tv])
        else .error "xml: content after document root"
    | _ => .error "xml: document must begin with an element"

/-! ## The document parser (`parseQueuesFromXML`, `parseGlobalConfigFromXML`)

Translated from `xml-utils`: the walk over the `xml2js` result object. -/

def lcEq (a b : Char) : Bool := a.toLower = b.toLower

/-- Case-insensitive literal match; returns the rest of the input. -/
def matchCI : List Char → List Char → Option (List Char)
  | [], cs => some cs
  | _ :: _, [] => none
  | p :: ps, c :: cs => if lcEq c p then matchCI ps cs else none

/-- Line terminators, which `.` in a JS regex does not match. -/
def isLineTerm (c : Char) : Bool := c = '\n' || c = '\r'

/-- `(\d+)\s*mb` anchored at the current position (group 1 of the
resource regex); the greedy digit run never needs backtracking because a
shorter run would leave a digit where `\s*mb` must match. -/
def tryMbAt (cs : List Char) : Option (Nat × List Char) :=
  let d1 := cs.takeWhile Char.isDigit
  if d1 = [] then none
  else
    match matchCI ['m', 'b'] ((cs.dropWhile Char.isDigit).dropWhile jsWS) with
    | some rest => some (digitsToNat d1, rest)
    | none => none

/-- The `.*?(\d+)\s*vcores` tail: the lazy gap grows one character at a
time (stopping at a line terminator) until `(\d+)\s*vcores` matches. -/
def searchVcores : List Char → Option Nat
  | [] => none
  | c :: r =>
    match (if c.isDigit then
             match matchCI ['v', 'c', 'o', 'r', 'e', 's']
                 (((c :: r).dropWhile Char.isDigit).dropWhile jsWS) with
             | some _ => some (digitsToNat ((c :: r).takeWhile Char.isDigit))
             | none => none
           else none : Option Nat) with
    | some v => some v
    | none => if isLineTerm c then none else searchVcores r

/-- Leftmost match of `/(\d+)\s*mb.*?(\d+)\s*vcores/i`, returning the two
captured integers. -/
def matchResPairAux : List Char → Option (Nat × Nat)
  | [] => none
  | c :: r =>
    match tryMbAt (c :: r) with
    | some (m, rest) =>
      match searchVcores rest with
      | some v => some (m, v)
      | none => matchResPairAux r
    | none => matchResPairAux r

def matchResPair (s : String) : Option (Nat × Nat) := matchResPairAux s.toList

/-- One queue record as produced by `parseQueuesFromXML` (absent object
keys are `none`; a numeric key holding `NaN` is also `none`, see the
header note). -/
structure ParsedQueue where
  name : String
  parent : Option String
  weight : JsNum
  schedulingPolicy : String
  minMemory : Option Int := none
  minVcores : Option Int := none
  maxMemory : Option Int := none
  maxVcores : Option Int := none
  maxRunningApps : Option Int := none
  maxAMShare : Option JsNum := none
  allowPreemptionFrom : Option Bool := none
  allowPreemptionTo : Option Bool := none
deriving DecidableEq, Repr

def jsOneNum : JsNum := ⟨1, 1⟩

/-- The synthesized `root` record pushed when the document has queues. -/
def rootQueueRecord : ParsedQueue :=
  { name := "root", parent := none, weight := jsOneNum, schedulingPolicy := "fair" }

def parseFloatOfField (o : Option JVal) : Option JsNum :=
  match o with
  | none => none
  | some w => parseFloatJS (jStringify w)

def parseIntOfField (o : Option JVal) : Option Int :=
  match o with
  | none => none
  | some w => parseIntJS (jStringify w)

def stringifyOpt : Option JVal → String
  | some v => jStringify v
  | none => ""

/-- The name a queue element is processed under:
`queueXml.$ ? queueXml.$.name : null`, with JS falsiness folding the
missing attribute and the empty string together. -/
def queueNameOf (queueXml : JVal) : String :=
  match jGetOpt (jGet queueXml "$") "name" with
  | some v => jStringify v
  | none => ""

/-- The message of the `TypeError` raised by calling `.match` on a
non-string (an element-valued or repeated resource field); thrown inside
the promise executor, it rejects the parse promise. -/
def typeErrorMsg : String := "TypeError: match is not a function"

/-- `v.match(resourceRegex)`: only strings have a `match` method. -/
def jsMatchRes (v : JVal) : Except String (Option (Nat × Nat)) :=
  match v with
  | .str s => .ok (matchResPair s)
  | _ => .error typeErrorMsg

/-- `if (queueXml.minResources) { … .match(…) … }` for one resource field. -/
def resFieldOf (o : Option JVal) : Except String (Option (Nat × Nat)) :=
  match o with
  | some v => if jTruthy (some v) then jsMatchRes v else .ok none
  | none => .ok none

/-- The record built for one named queue element (the body of
`processQueue` before the nested-queue recursion). -/
def queueRecordOf (queueXml : JVal) (queueName parentName : String)
    (minRes maxRes : Option (Nat × Nat)) : ParsedQueue :=
  { name := queueName
    parent := some parentName
    weight := match parseFloatOfField (jGet queueXml "weight") with
      | some w => if w.isZero then jsOneNum else w
      | none => jsOneNum
    schedulingPolicy := match jGet queueXml "schedulingPolicy" with
      | some v => if jTruthy (some v) then jStringify v else "fair"
      | none => "fair"
    minMemory := minRes.map (fun p => (p.1 : Int))
    minVcores := minRes.map (fun p => (p.2 : Int))
    maxMemory := maxRes.map (fun p => (p.1 : Int))
    maxVcores := maxRes.map (fun p => (p.2 : Int))
    maxRunningApps :=
      if jTruthy (jGet queueXml "maxRunningApps") then
        parseIntOfField (jGet queueXml "maxRunningApps")
      else none
    maxAMShare :=
      if jTruthy (jGet queueXml "maxAMShare") then
        parseFloatOfField (jGet queueXml "maxAMShare")
      else none
    allowPreemptionFrom := match jGet queueXml "allowPreemptionFrom" with
      | some v => if jTruthy (some v) then some (jIsStrTrue v) else none
      | none => none
    allowPreemptionTo := match jGet queueXml "allowPreemptionTo" with
      | some v => if jTruthy (some v) then some (jIsStrTrue v) else none
      | none => none }

mutual

def processQueue : Nat → JVal → String → List ParsedQueue → Except String (List ParsedQueue)
  | 0, _, _, acc => .ok acc
  | Nat.succ fu, queueXml, parentName, acc =>
    if jTruthy (some queueXml) = false then .ok acc
    else if queueNameOf queueXml = "" then .ok acc
    else
      match resFieldOf (jGet queueXml "minResources") with
      | .error e => .error e
      | .ok minRes =>
        match resFieldOf (jGet queueXml "maxResources") with
        | .error e => .error e
        | .ok maxRes =>
          match jGet queueXml "queue" with
          | some v =>
            if jTruthy (some v) = true then
              processQueueList fu (jToArr v) (queueNameOf queueXml)
                (acc ++ [queueRecordOf queueXml (queueNameOf queueXml) parentName minRes maxRes])
            else .ok (acc ++ [queueRecordOf queueXml (queueNameOf queueXml) parentName minRes maxRes])
          | none => .ok (acc ++ [queueRecordOf queueXml (queueNameOf queueXml) parentName minRes maxRes])

def processQueueList : Nat → List JVal → String → List ParsedQueue → Except String (List ParsedQueue)
  | 0, _, _, acc => .ok acc
  | Nat.succ _, [], _, acc => .ok acc
  | Nat.succ fu, q :: rest, parentName, acc =>
    match processQueue fu q parentName acc with
    | .error e => .error e
    | .ok acc1 => processQueueList fu rest parentName acc1

end

/-- The body of the `parseQueuesFromXML` callback once `xml2js` has
produced `result`. -/
def parseQueuesOfDoc (content : String) (result : JVal) : Except String (List ParsedQueue) :=
  if jTruthy (jGet result "allocations") = false then .ok []
  else
    match jGetOpt (jGet result "allocations") "queue" with
    | none => .ok []
    | some qv =>
      if jTruthy (some qv) = false then .ok []
      else processQueueList (content.length + 16) (jToArr qv) "root" [rootQueueRecord]

/-- `parseQueuesFromXML` from `xml-utils`: `Except.error` models the
rejected promise (the `xml2js` callback error, or a `TypeError` escaping
the promise executor). -/
def parseQueuesFromXML (content : String) : Except String (List ParsedQueue) :=
  match xml2jsParse content with
  | .error e => .error e
  | .ok result => parseQueuesOfDoc content result

/-- Global scheduler settings, as the in-memory record (the constant
`id: 1` key is omitted). -/
structure GlobalConfig where
  defaultQueueSchedulingPolicy : String
  userMaxAppsDefault : Option Int
  queueMaxAppsDefault : Option Int
  queueMaxAMShareDefault : Option JsNum
  queuePlacementRules : String
  defaultQueue : String
deriving DecidableEq, Repr

def defaultGlobalConfig : GlobalConfig :=
  { defaultQueueSchedulingPolicy := "fair"
    userMaxAppsDefault := some 5
    queueMaxAppsDefault := none
    queueMaxAMShareDefault := none
    queuePlacementRules := "specified,user,default"
    defaultQueue := "default" }

/-- One step of the placement-rule mapping: a `default` rule with a
`queue` attribute updates `defaultQueue`; a rule without attributes
contributes its own stringification; a missing `name` joins as `""`. -/
def placementRuleStep (acc : String × List String) (r : JVal) : String × List String :=
  if jTruthy (jGet r "$") then
    if jIsStr (jGetOpt (jGet r "$") "name") "default" && jTruthy (jGetOpt (jGet r "$") "queue") then
      (stringifyOpt (jGetOpt (jGet r "$") "queue"), acc.2 ++ ["default"])
    else
      (acc.1, acc.2 ++ [stringifyOpt (jGetOpt (jGet r "$") "name")])
  else (acc.1, acc.2 ++ [jStringify r])

/-- `parseGlobalConfigFromXML` from `xml-utils`. -/
def parseGlobalConfigFromXML (content : String) : Except String GlobalConfig :=
  match xml2jsParse content with
  | .error e => .error e
  | .ok result =>
    let g0 := defaultGlobalConfig
    let alloc := jGet result "allocations"
    if jTruthy alloc = false then .ok g0
    else
      let g1 :=
        if jTruthy (jGetOpt alloc "defaultQueueSchedulingPolicy") then
          { g0 with defaultQueueSchedulingPolicy :=
              stringifyOpt (jGetOpt alloc "defaultQueueSchedulingPolicy") }
        else g0
      let g2 :=
        if jTruthy (jGetOpt alloc "userMaxAppsDefault") then
          { g1 with userMaxAppsDefault := parseIntOfField (jGetOpt alloc "userMaxAppsDefault") }
        else g1
      let g3 :=
        if jTruthy (jGetOpt alloc "queueMaxAppsDefault") then
          { g2 with queueMaxAppsDefault := parseIntOfField (jGetOpt alloc "queueMaxAppsDefault") }
        else g2
      let g4 :=
        if jTruthy (jGetOpt alloc "queueMaxAMShareDefault") then
          { g3 with queueMaxAMShareDefault :=
              parseFloatOfField (jGetOpt alloc "queueMaxAMShareDefault") }
        else g3
      let g5 :=
        if jTruthy (jGetOpt alloc "queuePlacementPolicy") &&
            jTruthy (jGetOpt (jGetOpt alloc "queuePlacementPolicy") "rule") then
          let rules := jToArr (((jGetOpt (jGetOpt alloc "queuePlacementPolicy") "rule")).getD (JVal.str ""))
          let res := rules.foldl placementRuleStep (g4.defaultQueue, [])
          { g4 with queuePlacementRules := String.intercalate "," res.2, defaultQueue := res.1 }
        else g4
      .ok g5

/-! ## The document generator (`generateXMLFromQueues`)

Translated from `xml-utils`.  A queue record as the generator (and the
store) holds it: every field but the name is nullable. -/

structure Queue where
  name : String
  parent : Option String := none
  weight : Option JsNum := none
  schedulingPolicy : Option String := none
  minMemory : Option Int := none
  minVcores : Option Int := none
  maxMemory : Option Int := none
  maxVcores : Option Int := none
  maxRunningApps : Option Int := none
  maxAMShare : Option JsNum := none
  allowPreemptionFrom : Option Bool := none
  allowPreemptionTo : Option Bool := none
  aclSubmitApps : Option String := none
  aclAdministerApps : Option String := none
deriving DecidableEq, Repr

/-- JS truthiness of a nullable string / integer / number / boolean. -/
def truthyOptS : Option String → Bool
  | none => false
  | some s => s ≠ ""

def truthyOptI : Option Int → Bool
  | none => false
  | some n => n ≠ 0

def truthyOptN : Option JsNum → Bool
  | none => false
  | some x => !x.isZero

def truthyOptB : Option Bool → Bool
  | none => false
  | some b => b

/-- `queue.allowPreemptionFrom !== null ? queue.allowPreemptionFrom : false`,
then coerced to a boolean by the `? 'true' : 'false'` emission. -/
def apfValue (q : Queue) : Bool := truthyOptB q.allowPreemptionFrom

/-- One emitted property element of a queue, as data (`generateQueueXML`
renders these in order; keeping them structured lets theorems speak
about what is and is not emitted without string reasoning). -/
inductive QField where
  | weight (s : String)
  | policy (s : String)
  | minRes (s : String)
  | maxRes (s : String)
  | maxApps (s : String)
  | amShare (s : String)
  | preemptFrom (b : Bool)
  | preemptTo (b : Bool)
  | aclSubmit (s : String)
  | aclAdmin (s : String)
deriving DecidableEq, Repr

/-- The `minResources` / `maxResources` text: truthy parts joined with `','`. -/
def resPartsText (mem vc : Option Int) : String :=
  String.intercalate ","
    ((if truthyOptI mem then [intToString (mem.getD 0) ++ " mb"] else [])
      ++ (if truthyOptI vc then [intToString (vc.getD 0) ++ " vcores"] else []))

def weightChunk (q : Queue) : List QField :=
  match q.weight with
  | some w => [.weight (jsNumToString w)]
  | none => []

def weightChunkRoot (q : Queue) : List QField :=
  match q.weight with
  | some w => if w.isZero = false ∧ w.isOne = false then [.weight (jsNumToString w)] else []
  | none => []

def policyChunk (q : Queue) : List QField :=
  if truthyOptS q.schedulingPolicy then [.policy (q.schedulingPolicy.getD "")] else []

def minResChunk (q : Queue) : List QField :=
  if truthyOptI q.minMemory || truthyOptI q.minVcores then
    [.minRes (resPartsText q.minMemory q.minVcores)]
  else []

def maxResChunk (q : Queue) : List QField :=
  if truthyOptI q.maxMemory || truthyOptI q.maxVcores then
    [.maxRes (resPartsText q.maxMemory q.maxVcores)]
  else []

def maxAppsChunk (q : Queue) : List QField :=
  if truthyOptI q.maxRunningApps then
    [.maxApps (intToString (q.maxRunningApps.getD 0))]
  else []

def amShareChunk (q : Queue) : List QField :=
  if truthyOptN q.maxAMShare then
    [.amShare (jsNumToString (q.maxAMShare.getD jsZero))]
  else []

def preemptToChunk (q : Queue) : List QField :=
  match q.allowPreemptionTo with
  | some b => [.preemptTo b]
  | none => []

/-- `queue.aclSubmitApps || "*"`, emitted only when not the default. -/
def aclText (f : Option String) : String :=
  match f with
  | some s => if s ≠ "" then s else "*"
  | none => "*"

def aclSubmitChunk (q : Queue) : List QField :=
  if aclText q.aclSubmitApps ≠ "*" then [.aclSubmit (aclText q.aclSubmitApps)] else []

def aclAdminChunk (q : Queue) : List QField :=
  if aclText q.aclAdministerApps ≠ "*" then [.aclAdmin (aclText q.aclAdministerApps)] else []

/-- The property elements of one queue, in the exact order and under the
exact conditions of `generateQueueXML` (root and non-root branches). -/
def queueOwnFields (q : Queue) : List QField :=
  if q.name = "root" then
    weightChunkRoot q ++ policyChunk q
      ++ [.preemptFrom (apfValue q)] ++ preemptToChunk q
  else
    weightChunk q ++ policyChunk q ++ minResChunk q ++ maxResChunk q
      ++ maxAppsChunk q ++ amShareChunk q
      ++ [.preemptFrom (apfValue q)] ++ preemptToChunk q
      ++ aclSubmitChunk q ++ aclAdminChunk q

def renderQField (indent : String) (f : QField) : String :=
  match f with
  | .weight s => indent ++ "  <weight>" ++ s ++ "</weight>\n"
  | .policy s => indent ++ "  <schedulingPolicy>" ++ s ++ "</schedulingPolicy>\n"
  | .minRes s => indent ++ "  <minResources>" ++ s ++ "</minResources>\n"
  | .maxRes s => indent ++ "  <maxResources>" ++ s ++ "</maxResources>\n"
  | .maxApps s => indent ++ "  <maxRunningApps>" ++ s ++ "</maxRunningApps>\n"
  | .amShare s => indent ++ "  <maxAMShare>" ++ s ++ "</maxAMShare>\n"
  | .preemptFrom b =>
    indent ++ "  <allowPreemptionFrom>" ++ (if b then "true" else "false")
      ++ "</allowPreemptionFrom>\n"
  | .preemptTo b =>
    indent ++ "  <allowPreemptionTo>" ++ (if b then "true" else "false")
      ++ "</allowPreemptionTo>\n"
  | .aclSubmit s => indent ++ "  <aclSubmitApps>" ++ s ++ "</aclSubmitApps>\n"
  | .aclAdmin s => indent ++ "  <aclAdministerApps>" ++ s ++ "</aclAdministerApps>\n"

/-- `Map.prototype.set`: replace in place or append. -/
def mapSet {α : Type} : List (String × α) → String → α → List (String × α)
  | [], k, v => [(k, v)]
  | (k', v') :: rest, k, v =>
    if k' = k then (k, v) :: rest else (k', v') :: mapSet rest k v

def mapGet {α : Type} : List (String × α) → String → Option α
  | [], _ => none
  | (k', v) :: rest, k => if k' = k then some v else mapGet rest k

def buildQueueMap (queues : List Queue) : List (String × Queue) :=
  queues.foldl (fun m q => mapSet m q.name q) []

/-- `childrenMap`: every queue name maps to `[]`, then each queue with a
truthy parent that is a known key is appended to its parent's list. -/
def buildChildrenMap (queues : List Queue) : List (String × List Queue) :=
  let init := queues.foldl (fun m q => mapSet m q.name []) []
  queues.foldl
    (fun m q =>
      match q.parent with
      | some p =>
        if p ≠ "" then
          match mapGet m p with
          | some cs => mapSet m p (cs ++ [q])
          | none => m
        else m
      | none => m)
    init

def indentOf (depth : Nat) : String := String.join (List.replicate depth "  ")

mutual

/-- Recursive per-queue rendering (`generateQueueXML`); the fuel bounds
the recursion depth, which JS leaves unbounded (a cyclic `childrenMap`
would overflow the JS stack; no reachable store state produces one). -/
def generateQueueXML : Nat → List (String × List Queue) → Queue → Nat → String
  | 0, _, _, _ => ""
  | Nat.succ fu, cm, q, depth =>
    let indent := indentOf depth
    indent ++ "<queue name=\"" ++ q.name ++ "\">\n"
      ++ String.join ((queueOwnFields q).map (renderQField indent))
      ++ genChildren fu cm ((mapGet cm q.name).getD []) (depth + 1)
      ++ indent ++ "</queue>\n"

def genChildren : Nat → List (String × List Queue) → List Queue → Nat → String
  | 0, _, _, _ => ""
  | Nat.succ _, _, [], _ => ""
  | Nat.succ fu, cm, c :: rest, depth =>
    generateQueueXML fu cm c depth ++ genChildren fu cm rest depth

end

/-- `generateXMLFromQueues` from `xml-utils` (the variant taking the
global configuration). -/
def generateXMLFromQueues (queues : List Queue) (globalConfig : Option GlobalConfig) : String :=
  let qm := buildQueueMap queues
  let cm := buildChildrenMap queues
  let fuel := 2 * queues.length + 2
  let body := match mapGet qm "root" with
    | some rq => generateQueueXML fuel cm rq 1
    | none =>
      String.join ((queues.filter (fun q => !truthyOptS q.parent)).map
        (fun q => generateQueueXML fuel cm q 1))
  let userMaxApps := match globalConfig with
    | some g => match g.userMaxAppsDefault with
      | some n => if n ≠ 0 then intToString n else "5"
      | none => "5"
    | none => "5"
  let defaultPolicy := match globalConfig with
    | some g =>
      if g.defaultQueueSchedulingPolicy ≠ "" then g.defaultQueueSchedulingPolicy else "fair"
    | none => "fair"
  let placementRules := match globalConfig with
    | some g => if g.queuePlacementRules ≠ "" then g.queuePlacementRules else "specified,user,default"
    | none => "specified,user,default"
  let defaultQueue := match globalConfig with
    | some g => if g.defaultQueue ≠ "" then g.defaultQueue else "default"
    | none => "default"
  let rules := (splitComma placementRules).map jsTrim
  let ruleLines := String.join (rules.map (fun r =>
    if r = "default" then "    <rule name=\"default\" queue=\"" ++ defaultQueue ++ "\"/>\n"
    else "    <rule name=\"" ++ r ++ "\"/>\n"))
  "<?xml version=\"1.0\"?>\n<allocations>\n" ++ body
    ++ "\n  <userMaxAppsDefault>" ++ userMaxApps ++ "</userMaxAppsDefault>\n"
    ++ "  <defaultQueueSchedulingPolicy>" ++ defaultPolicy ++ "</defaultQueueSchedulingPolicy>\n\n"
    ++ "  <queuePlacementPolicy>\n" ++ ruleLines ++ "  </queuePlacementPolicy>\n"
    ++ "</allocations>"

/-! ## The reconciliation store (`MemStorage`)

Translated from `storage.ts`.  JS `Map`s become insertion-ordered
association lists; the `Set` of pending ids an insertion-ordered list
without duplicates.  Only the fields and operations the claims touch are
modelled (timestamps, validity flags and the YARN connection record play
no role in any claim). -/

structure ConfigFile where
  filePath : String
  content : String
deriving DecidableEq, Repr

def mapSetN {α : Type} : List (Nat × α) → Nat → α → List (Nat × α)
  | [], k, v => [(k, v)]
  | (k', v') :: rest, k, v =>
    if k' = k then (k, v) :: rest else (k', v') :: mapSetN rest k v

structure Store where
  queues : List (Nat × Queue)
  configFiles : List (Nat × ConfigFile)
  globalConfig : GlobalConfig
  currentQueueId : Nat
  currentConfigId : Nat
  pendingChanges : List Nat
  lastSyncedState : List (Nat × Queue)
deriving DecidableEq, Repr

def addPending (pcs : List Nat) (id : Nat) : List Nat :=
  if id ∈ pcs then pcs else pcs ++ [id]

/-- `createQueue`: insert under a fresh id, mark pending.  The source's
`?? null` field coercions are identities on the nullable model. -/
def createQueue (st : Store) (insertQueue : Queue) : Store × Queue :=
  ({ st with
      queues := mapSetN st.queues st.currentQueueId insertQueue
      currentQueueId := st.currentQueueId + 1
      pendingChanges := addPending st.pendingChanges st.currentQueueId },
   insertQueue)

/-- `getConfigFile`: the first stored config file. -/
def getConfigFile (st : Store) : Option ConfigFile :=
  st.configFiles.head?.map (fun p => p.2)

def saveConfigFile (st : Store) (cf : ConfigFile) : Store :=
  { st with
    configFiles := mapSetN st.configFiles st.currentConfigId cf
    currentConfigId := st.currentConfigId + 1 }

/-- `applyPendingChanges`.  The write to disk is the external effect; its
outcome is a parameter.  The result is the store as left by the call
(JS mutations before a `throw` persist) together with the surfaced
error, if any. -/
def applyPendingChanges (st : Store) (writeResult : Except String Unit) :
    Store × Option String :=
  if st.pendingChanges = [] then (st, none)
  else
    let xmlContent := generateXMLFromQueues (st.queues.map (fun p => p.2)) (some st.globalConfig)
    match getConfigFile st with
    | some cf =>
      let st1 := saveConfigFile st { filePath := cf.filePath, content := xmlContent }
      match writeResult with
      | .error e => (st1, some e)
      | .ok _ =>
        ({ st1 with pendingChanges := [], lastSyncedState := st1.queues }, none)
    | none =>
      ({ st with pendingChanges := [], lastSyncedState := st.queues }, none)

/-- `discardPendingChanges`: restore the queue map from the baseline
(element-wise copies; in the value model a copy is the record itself)
and clear the pending set. -/
def discardPendingChanges (st : Store) : Store :=
  { st with queues := st.lastSyncedState, pendingChanges := [] }

/-- First-occurrence deduplication by name (the `uniqueQueues` map of
`syncQueuesFromXML`; a JS `Map` keeps first-insertion order). -/
def dedupFirstAux (seen : List String) : List ParsedQueue → List ParsedQueue
  | [] => []
  | q :: rest =>
    if q.name ∈ seen then dedupFirstAux seen rest
    else q :: dedupFirstAux (q.name :: seen) rest

def intOrNull : Option Int → Option Int
  | some n => if n = 0 then none else some n
  | none => none

/-- The `{ ...queue, id, field: queue.field || null, ... }` record built
by `syncQueuesFromXML`: `|| null` turns `0`, `""` and `false` into null. -/
def parsedToStored (q : ParsedQueue) : Queue :=
  { name := q.name
    parent := match q.parent with
      | some s => if s = "" then none else some s
      | none => none
    weight := if q.weight.isZero then none else some q.weight
    schedulingPolicy := if q.schedulingPolicy = "" then none else some q.schedulingPolicy
    minMemory := intOrNull q.minMemory
    minVcores := intOrNull q.minVcores
    maxMemory := intOrNull q.maxMemory
    maxVcores := intOrNull q.maxVcores
    maxRunningApps := intOrNull q.maxRunningApps
    maxAMShare := match q.maxAMShare with
      | some x => if x.isZero then none else some x
      | none => none
    allowPreemptionFrom := if q.allowPreemptionFrom = some true then some true else none
    allowPreemptionTo := if q.allowPreemptionTo = some true then some true else none
    aclSubmitApps := none
    aclAdministerApps := none }

def assignIds : Nat → List Queue → List (Nat × Queue)
  | _, [] => []
  | n, q :: rest => (n, q) :: assignIds (n + 1) rest

/-- `syncQueuesFromXML`: clear the queue map, reset the id counter,
deduplicate by name keeping first occurrences, insert with ids `1, 2, …`. -/
def syncQueuesFromXML (st : Store) (qs : List ParsedQueue) : Store :=
  let uniques := dedupFirstAux [] qs
  { st with
    queues := assignIds 1 (uniques.map parsedToStored)
    currentQueueId := uniques.length + 1 }

/-- Embedding of a parsed record into the full queue-record shape, for
stating structural equality between a parse result and a generator
input (`weight`/`schedulingPolicy` are always present on a parsed
record; ACL keys never are). -/
def parsedAsQueue (p : ParsedQueue) : Queue :=
  { name := p.name
    parent := p.parent
    weight := some p.weight
    schedulingPolicy := some p.schedulingPolicy
    minMemory := p.minMemory
    minVcores := p.minVcores
    maxMemory := p.maxMemory
    maxVcores := p.maxVcores
    maxRunningApps := p.maxRunningApps
    maxAMShare := p.maxAMShare
    allowPreemptionFrom := p.allowPreemptionFrom
    allowPreemptionTo := p.allowPreemptionTo
    aclSubmitApps := none
    aclAdministerApps := none }

/-! ## Auxiliary predicates and concrete fixtures used by the theorems -/

def listStartsWith : List Char → List Char → Bool
  | [], _ => true
  | _ :: _, [] => false
  | a :: as, b :: bs => a = b && listStartsWith as bs

def listHasSub (pat : List Char) : List Char → Bool
  | [] => listStartsWith pat []
  | c :: r => listStartsWith pat (c :: r) || listHasSub pat r

/-- Substring occurrence test on strings. -/
def strHasSub (pat s : String) : Bool := listHasSub pat.toList s.toList

def isPreemptFromF : QField → Bool
  | .preemptFrom _ => true
  | _ => false

def isArrJ : JVal → Bool
  | .arr _ => true
  | _ => false

/-- Representative hierarchy for the round-trip property: a `root` node
plus one child with every optional field populated. -/
def q0root : Queue :=
  { name := "root"
    weight := some ⟨1, 1⟩
    schedulingPolicy := some "fair" }

def q0child : Queue :=
  { name := "analytics"
    parent := some "root"
    weight := some ⟨5, 2⟩
    schedulingPolicy := some "drf"
    minMemory := some 1024
    minVcores := some 1
    maxMemory := some 8192
    maxVcores := some 4
    maxRunningApps := some 10
    maxAMShare := some ⟨3, 10⟩
    allowPreemptionFrom := some true
    allowPreemptionTo := some false
    aclSubmitApps := some "alice"
    aclAdministerApps := some "bob" }

def g0 : GlobalConfig :=
  { defaultQueueSchedulingPolicy := "drf"
    userMaxAppsDefault := some 7
    queueMaxAppsDefault := some 3
    queueMaxAMShareDefault := some ⟨1, 2⟩
    queuePlacementRules := "specified,user,default"
    defaultQueue := "dq" }

/-- What re-parsing the generated document actually produces for the
`root` element: a second `root` record, parented to `"root"`, carrying
the re-parsed `allowPreemptionFrom>false` emitted for the original root. -/
def dupRootRecord : ParsedQueue :=
  { name := "root"
    parent := some "root"
    weight := ⟨1, 1⟩
    schedulingPolicy := "fair"
    allowPreemptionFrom := some false }

/-- The re-parsed child: every field of `q0child` except the ACL fields,
which the parser never reads. -/
def analyticsRecord : ParsedQueue :=
  { name := "analytics"
    parent := some "root"
    weight := ⟨5, 2⟩
    schedulingPolicy := "drf"
    minMemory := some 1024
    minVcores := some 1
    maxMemory := some 8192
    maxVcores := some 4
    maxRunningApps := some 10
    maxAMShare := some ⟨3, 10⟩
    allowPreemptionFrom := some true
    allowPreemptionTo := some false }

/-- A document whose only queue carries the decimal literal `"4.0"`. -/
def weightDoc : String :=
  "<?xml version=\"1.0\"?>\n<allocations>\n  <queue name=\"a\">\n    <weight>4.0</weight>\n  </queue>\n</allocations>"

/-- The record parsed from `weightDoc`'s queue element. -/
def aWeightRecord : ParsedQueue :=
  { name := "a", parent := some "root", weight := ⟨4, 1⟩, schedulingPolicy := "fair" }

/-- A well-formed document that contains queue elements (one nested in a
non-queue wrapper, one empty) yet parses to the empty list. -/
def c5doc : String :=
  "<allocations><wrapper><queue name=\"a\"/></wrapper><queue></queue></allocations>"

def c5docJ : JVal :=
  JVal.obj [("allocations", JVal.obj
    [("wrapper", JVal.obj [("queue", JVal.obj [("$", JVal.obj [("name", JVal.str "a")])])]),
     ("queue", JVal.str "")])]

/-- A minimal document with one (truthy) queue element. -/
def docA : String := "<allocations><queue name=\"a\"/></allocations>"

def docAJ : JVal :=
  JVal.obj [("allocations", JVal.obj
    [("queue", JVal.obj [("$", JVal.obj [("name", JVal.str "a")])])])]

def aNamedRecord : ParsedQueue :=
  { name := "a", parent := some "root", weight := ⟨1, 1⟩, schedulingPolicy := "fair" }

/-- A queue element with no `name` attribute wrapping a named one. -/
def qxUnnamed : JVal :=
  JVal.obj [("queue", JVal.obj [("$", JVal.obj [("name", JVal.str "b")])])]

def docUnnamed : String :=
  "<allocations><queue><queue name=\"b\"/></queue></allocations>"

def docUnnamedJ : JVal := JVal.obj [("allocations", JVal.obj [("queue", qxUnnamed)])]

/-- A small store used to instantiate the store theorems. -/
def stW : Store :=
  { queues := [(1, { name := "root" })]
    configFiles := [(1, { filePath := "./data/fair-scheduler.xml", content := "old" })]
    globalConfig := defaultGlobalConfig
    currentQueueId := 2
    currentConfigId := 2
    pendingChanges := [1]
    lastSyncedState := [(1, { name := "root" })] }

def qNew : Queue := { name := "batch", parent := some "root", weight := some ⟨1, 1⟩ }

def pqA : ParsedQueue :=
  { name := "a", parent := some "root", weight := ⟨2, 1⟩, schedulingPolicy := "fair" }

def pqADup : ParsedQueue :=
  { name := "a", parent := some "root", weight := ⟨3, 1⟩, schedulingPolicy := "fifo" }

/-- A queue with every bound populated, used to instantiate the
generator theorems. -/
def qBounds : Queue :=
  { name := "b"
    parent := some "root"
    weight := some ⟨1, 2⟩
    schedulingPolicy := some "fair"
    minMemory := some 512
    minVcores := some 2
    maxMemory := some 2048
    maxVcores := some 8
    maxRunningApps := some 10
    maxAMShare := some ⟨1, 4⟩
    allowPreemptionTo := some true }

/-! ## Theorems: the reconciliation store -/

theorem dedupFirstAux_notin_seen (qs : List ParsedQueue) (seen : List String) :
    ∀ q ∈ dedupFirstAux seen qs, q.name ∉ seen := by
  induction qs generalizing seen with
  | nil => intro q hq; simp [dedupFirstAux] at hq
  | cons x rest ih =>
    intro q hq
    unfold dedupFirstAux at hq
    by_cases hx : x.name ∈ seen
    · rw [if_pos hx] at hq
      exact ih seen q hq
    · rw [if_neg hx] at hq
      rcases List.mem_cons.mp hq with h | h
      · rw [h]; exact hx
      · intro hs
        exact ih (x.name :: seen) q h (List.mem_cons_of_mem _ hs)

theorem dedupFirstAux_names_nodup (qs : List ParsedQueue) (seen : List String) :
    ((dedupFirstAux seen qs).map (fun q => q.name)).Nodup := by
  induction qs generalizing seen with
  | nil => simp [dedupFirstAux]
  | cons x rest ih =>
    unfold dedupFirstAux
    by_cases hx : x.name ∈ seen
    · rw [if_pos hx]; exact ih seen
    · rw [if_neg hx]
      refine List.nodup_cons.mpr ⟨?_, ih (x.name :: seen)⟩
      intro hmem
      obtain ⟨q, hq, hqe⟩ := List.mem_map.mp hmem
      exact dedupFirstAux_notin_seen rest (x.name :: seen) q hq
        (by rw [hqe]; exact List.mem_cons_self _ _)

theorem dedupFirstAux_first_occ (qs : List ParsedQueue) (seen : List String) :
    ∀ q ∈ dedupFirstAux seen qs,
      ∃ pre post, qs = pre ++ q :: post ∧ ∀ r ∈ pre, r.name ≠ q.name := by
  induction qs generalizing seen with
  | nil => intro q hq; simp [dedupFirstAux] at hq
  | cons x rest ih =>
    intro q hq
    unfold dedupFirstAux at hq
    by_cases hx : x.name ∈ seen
    · rw [if_pos hx] at hq
      obtain ⟨pre, post, heq, hpre⟩ := ih seen q hq
      have hqn : q.name ∉ seen := dedupFirstAux_notin_seen rest seen q hq
      refine ⟨x :: pre, post, by rw [List.cons_append, heq], ?_⟩
      intro r hr
      rcases List.mem_cons.mp hr with h | h
      · rw [h]
        intro hcontra
        rw [hcontra] at hx
        exact hqn hx
      · exact hpre r h
    · rw [if_neg hx] at hq
      rcases List.mem_cons.mp hq with h | h
      · exact ⟨[], rest, by simp [h], by simp⟩
      · obtain ⟨pre, post, heq, hpre⟩ := ih (x.name :: seen) q h
        have hqn : q.name ∉ x.name :: seen :=
          dedupFirstAux_notin_seen rest (x.name :: seen) q h
        refine ⟨x :: pre, post, by rw [List.cons_append, heq], ?_⟩
        intro r hr
        rcases List.mem_cons.mp hr with h2 | h2
        · rw [h2]
          intro hcontra
          exact hqn (by rw [hcontra]; exact List.mem_cons_self _ _)
        · exact hpre r h2

theorem dedupFirstAux_covers (qs : List ParsedQueue) (seen : List String) :
    ∀ q ∈ qs, q.name ∈ seen ∨ ∃ q' ∈ dedupFirstAux seen qs, q'.name = q.name := by
  induction qs generalizing seen with
  | nil => intro q hq; simp at hq
  | cons x rest ih =>
    intro q hq
    unfold dedupFirstAux
    by_cases hx : x.name ∈ seen
    · rw [if_pos hx]
      rcases List.mem_cons.mp hq with h | h
      · left; rw [h]; exact hx
      · exact ih seen q h
    · rw [if_neg hx]
      rcases List.mem_cons.mp hq with h | h
      · right; exact ⟨x, List.mem_cons_self _ _, by rw [h]⟩
      · rcases ih (x.name :: seen) q h with hs | ⟨q', hq', he⟩
        · rcases List.mem_cons.mp hs with h2 | h2
          · right; exact ⟨x, List.mem_cons_self _ _, h2.symm⟩
          · left; exact h2
        · right; exact ⟨q', List.mem_cons_of_mem _ hq', he⟩

theorem assignIds_map_snd (n : Nat) (l : List Queue) :
    (assignIds n l).map (fun p => p.2) = l := by
  induction l generalizing n with
  | nil => rfl
  | cons x rest ih => simp [assignIds, ih]

/-- Claim C7: when the store ingests a parsed queue list
(`syncQueuesFromXML`), only the first occurrence of each name survives,
in document order, and afterwards no two stored queues share a name. -/
theorem syncQueuesFromXML_dedup_first (st : Store) (qs : List ParsedQueue) :
    (((syncQueuesFromXML st qs).queues.map (fun p => p.2)).map Queue.name).Nodup ∧
    (syncQueuesFromXML st qs).queues.map (fun p => p.2) =
      (dedupFirstAux [] qs).map parsedToStored ∧
    (∀ q ∈ dedupFirstAux [] qs,
      ∃ pre post, qs = pre ++ q :: post ∧ ∀ r ∈ pre, r.name ≠ q.name) ∧
    (∀ q ∈ qs, ∃ q' ∈ dedupFirstAux [] qs, q'.name = q.name) := by
  have hq : (syncQueuesFromXML st qs).queues.map (fun p => p.2) =
      (dedupFirstAux [] qs).map parsedToStored := by
    unfold syncQueuesFromXML
    exact assignIds_map_snd _ _
  refine ⟨?_, hq, dedupFirstAux_first_occ qs [], ?_⟩
  · rw [hq, List.map_map]
    have hcomp : (Queue.name ∘ parsedToStored) = (fun q : ParsedQueue => q.name) := rfl
    rw [hcomp]
    exact dedupFirstAux_names_nodup qs []
  · intro q hq2
    rcases dedupFirstAux_covers qs [] q hq2 with hs | h
    · simp at hs
    · exact h

theorem syncQueuesFromXML_dedup_first_witness :
    (((syncQueuesFromXML stW [pqA, pqADup]).queues.map (fun p => p.2)).map Queue.name).Nodup ∧
    (∃ q' ∈ dedupFirstAux [] [pqA, pqADup], q'.name = pqADup.name) ∧
    (syncQueuesFromXML stW [pqA, pqADup]).queues.map (fun p => p.2) = [parsedToStored pqA] := by
  have h := syncQueuesFromXML_dedup_first stW [pqA, pqADup]
  refine ⟨h.1, h.2.2.2 pqADup (by simp), ?_⟩
  rw [h.2.1]
  rfl

/-- Claim C3: if the disk write inside `applyPendingChanges` fails, the
error is surfaced, the pending set is untouched (the store stays dirty),
the baseline is not replaced and the in-memory queue set is unchanged. -/
theorem applyPendingChanges_write_failure (st : Store) (e : String)
    (hp : st.pendingChanges ≠ []) (hcf : st.configFiles ≠ []) :
    (applyPendingChanges st (.error e)).2 = some e ∧
    (applyPendingChanges st (.error e)).1.queues = st.queues ∧
    (applyPendingChanges st (.error e)).1.pendingChanges = st.pendingChanges ∧
    (applyPendingChanges st (.error e)).1.lastSyncedState = st.lastSyncedState := by
  obtain ⟨c, rest, hl⟩ : ∃ c rest, st.configFiles = c :: rest := by
    cases h : st.configFiles with
    | nil => exact absurd h hcf
    | cons c rest => exact ⟨c, rest, rfl⟩
  unfold applyPendingChanges getConfigFile
  rw [if_neg hp, hl]
  simp [saveConfigFile]

theorem applyPendingChanges_write_failure_witness :
    (applyPendingChanges stW (.error "disk full")).2 = some "disk full" ∧
    (applyPendingChanges stW (.error "disk full")).1.queues = stW.queues ∧
    (applyPendingChanges stW (.error "disk full")).1.pendingChanges = stW.pendingChanges ∧
    (applyPendingChanges stW (.error "disk full")).1.lastSyncedState = stW.lastSyncedState :=
  applyPendingChanges_write_failure stW "disk full" (by decide) (by decide)

/-- Claim C4: `discardPendingChanges` after `createQueue` leaves the
created queue absent, restores the queue set to the pre-create baseline
field for field, and clears the pending set.  (The freshness hypothesis
is the store's id invariant: baseline ids are below the id counter.) -/
theorem discard_after_create_restores_baseline (st : Store) (nq : Queue)
    (hfresh : ∀ p ∈ st.lastSyncedState, p.1 < st.currentQueueId) :
    (discardPendingChanges (createQueue st nq).1).queues = st.lastSyncedState ∧
    (discardPendingChanges (createQueue st nq).1).pendingChanges = [] ∧
    ∀ p ∈ (discardPendingChanges (createQueue st nq).1).queues, p.1 ≠ st.currentQueueId := by
  refine ⟨rfl, rfl, ?_⟩
  intro p hp
  exact Nat.ne_of_lt (hfresh p hp)

theorem discard_after_create_restores_baseline_witness :
    (discardPendingChanges (createQueue stW qNew).1).queues = stW.lastSyncedState ∧
    (discardPendingChanges (createQueue stW qNew).1).pendingChanges = [] ∧
    ∀ p ∈ (discardPendingChanges (createQueue stW qNew).1).queues, p.1 ≠ stW.currentQueueId :=
  discard_after_create_restores_baseline stW qNew (by decide)

/-! ## Theorems: the generator -/

theorem mem_weightChunk {f : QField} {q : Queue} (h : f ∈ weightChunk q) :
    ∃ s, f = QField.weight s := by
  unfold weightChunk at h
  rcases hw : q.weight with _ | w
  · rw [hw] at h; simp at h
  · rw [hw] at h; simp at h; exact ⟨_, h⟩

theorem mem_weightChunkRoot {f : QField} {q : Queue} (h : f ∈ weightChunkRoot q) :
    ∃ s, f = QField.weight s := by
  unfold weightChunkRoot at h
  rcases hw : q.weight with _ | w
  · rw [hw] at h; simp at h
  · rw [hw] at h
    by_cases hc : w.isZero = false ∧ w.isOne = false
    · simp only [if_pos hc] at h; simp at h; exact ⟨_, h⟩
    · simp only [if_neg hc] at h; simp at h

theorem mem_policyChunk {f : QField} {q : Queue} (h : f ∈ policyChunk q) :
    ∃ s, f = QField.policy s := by
  unfold policyChunk at h
  by_cases hc : truthyOptS q.schedulingPolicy = true
  · rw [if_pos hc] at h; simp at h; exact ⟨_, h⟩
  · rw [if_neg hc] at h; simp at h

theorem mem_minResChunk {f : QField} {q : Queue} (h : f ∈ minResChunk q) :
    ∃ s, f = QField.minRes s := by
  unfold minResChunk at h
  by_cases hc : (truthyOptI q.minMemory || truthyOptI q.minVcores) = true
  · rw [if_pos hc] at h; simp at h; exact ⟨_, h⟩
  · rw [if_neg hc] at h; simp at h

theorem mem_maxResChunk {f : QField} {q : Queue} (h : f ∈ maxResChunk q) :
    ∃ s, f = QField.maxRes s := by
  unfold maxResChunk at h
  by_cases hc : (truthyOptI q.maxMemory || truthyOptI q.maxVcores) = true
  · rw [if_pos hc] at h; simp at h; exact ⟨_, h⟩
  · rw [if_neg hc] at h; simp at h

theorem mem_maxAppsChunk {f : QField} {q : Queue} (h : f ∈ maxAppsChunk q) :
    ∃ s, f = QField.maxApps s ∧ truthyOptI q.maxRunningApps = true := by
  unfold maxAppsChunk at h
  by_cases hc : truthyOptI q.maxRunningApps = true
  · rw [if_pos hc] at h; simp at h; exact ⟨_, h, hc⟩
  · rw [if_neg hc] at h; simp at h

theorem mem_amShareChunk {f : QField} {q : Queue} (h : f ∈ amShareChunk q) :
    ∃ s, f = QField.amShare s ∧ truthyOptN q.maxAMShare = true := by
  unfold amShareChunk at h
  by_cases hc : truthyOptN q.maxAMShare = true
  · rw [if_pos hc] at h; simp at h; exact ⟨_, h, hc⟩
  · rw [if_neg hc] at h; simp at h

theorem mem_aclSubmitChunk {f : QField} {q : Queue} (h : f ∈ aclSubmitChunk q) :
    ∃ s, f = QField.aclSubmit s := by
  unfold aclSubmitChunk at h
  by_cases hc : aclText q.aclSubmitApps ≠ "*"
  · rw [if_pos hc] at h; simp at h; exact ⟨_, h⟩
  · rw [if_neg hc] at h; simp at h

theorem mem_aclAdminChunk {f : QField} {q : Queue} (h : f ∈ aclAdminChunk q) :
    ∃ s, f = QField.aclAdmin s := by
  unfold aclAdminChunk at h
  by_cases hc : aclText q.aclAdministerApps ≠ "*"
  · rw [if_pos hc] at h; simp at h; exact ⟨_, h⟩
  · rw [if_neg hc] at h; simp at h

theorem mem_preemptToChunk {f : QField} {q : Queue} (h : f ∈ preemptToChunk q) :
    ∃ b, f = QField.preemptTo b := by
  unfold preemptToChunk at h
  rcases hw : q.allowPreemptionTo with _ | b
  · rw [hw] at h; simp at h
  · rw [hw] at h; simp at h; exact ⟨_, h⟩

theorem preemptToChunk_mem_iff (b : Bool) (q : Queue) :
    QField.preemptTo b ∈ preemptToChunk q ↔ q.allowPreemptionTo = some b := by
  unfold preemptToChunk
  rcases hw : q.allowPreemptionTo with _ | b'
  · simp
  · simp [eq_comm]

/-- Case split for membership in the emitted field list. -/
theorem queueOwnFields_mem_cases {f : QField} {q : Queue} (h : f ∈ queueOwnFields q) :
    f ∈ weightChunk q ∨ f ∈ weightChunkRoot q ∨ f ∈ policyChunk q ∨ f ∈ minResChunk q ∨
    f ∈ maxResChunk q ∨ f ∈ maxAppsChunk q ∨ f ∈ amShareChunk q ∨
    f = QField.preemptFrom (apfValue q) ∨ f ∈ preemptToChunk q ∨
    f ∈ aclSubmitChunk q ∨ f ∈ aclAdminChunk q := by
  unfold queueOwnFields at h
  by_cases hr : q.name = "root"
  · rw [if_pos hr] at h
    rcases List.mem_append.mp h with h1 | hTo
    rotate_left
    · exact Or.inr (Or.inr (Or.inr (Or.inr (Or.inr (Or.inr (Or.inr (Or.inr (Or.inl hTo))))))))
    rcases List.mem_append.mp h1 with h2 | hPf
    rotate_left
    · simp at hPf
      exact Or.inr (Or.inr (Or.inr (Or.inr (Or.inr (Or.inr (Or.inr (Or.inl hPf)))))))
    rcases List.mem_append.mp h2 with hW | hPol
    · exact Or.inr (Or.inl hW)
    · exact Or.inr (Or.inr (Or.inl hPol))
  · rw [if_neg hr] at h
    rcases List.mem_append.mp h with h1 | hAclA
    rotate_left
    · exact Or.inr (Or.inr (Or.inr (Or.inr (Or.inr (Or.inr (Or.inr (Or.inr (Or.inr (Or.inr hAclA)))))))))
    rcases List.mem_append.mp h1 with h2 | hAclS
    rotate_left
    · exact Or.inr (Or.inr (Or.inr (Or.inr (Or.inr (Or.inr (Or.inr (Or.inr (Or.inr (Or.inl hAclS)))))))))
    rcases List.mem_append.mp h2 with h3 | hTo
    rotate_left
    · exact Or.inr (Or.inr (Or.inr (Or.inr (Or.inr (Or.inr (Or.inr (Or.inr (Or.inl hTo))))))))
    rcases List.mem_append.mp h3 with h4 | hPf
    rotate_left
    · simp at hPf
      exact Or.inr (Or.inr (Or.inr (Or.inr (Or.inr (Or.inr (Or.inr (Or.inl hPf)))))))
    rcases List.mem_append.mp h4 with h5 | hAm
    rotate_left
    · exact Or.inr (Or.inr (Or.inr (Or.inr (Or.inr (Or.inr (Or.inl hAm))))))
    rcases List.mem_append.mp h5 with h6 | hApps
    rotate_left
    · exact Or.inr (Or.inr (Or.inr (Or.inr (Or.inr (Or.inl hApps)))))
    rcases List.mem_append.mp h6 with h7 | hMaxR
    rotate_left
    · exact Or.inr (Or.inr (Or.inr (Or.inr (Or.inl hMaxR))))
    rcases List.mem_append.mp h7 with h8 | hMinR
    rotate_left
    · exact Or.inr (Or.inr (Or.inr (Or.inl hMinR)))
    rcases List.mem_append.mp h8 with hW | hPol
    · exact Or.inl hW
    · exact Or.inr (Or.inr (Or.inl hPol))

theorem countP_preemptFrom_zero {l : List QField}
    (h : ∀ f ∈ l, isPreemptFromF f = false) : l.countP isPreemptFromF = 0 := by
  rw [List.countP_eq_zero]
  intro a ha
  simp [h a ha]

/-- Claim C8: every rendered queue (root and non-root alike) emits
exactly one `allowPreemptionFrom` element, whose value is `true` exactly
when the field is set to true (so `false` when unset or false), while
`allowPreemptionTo` is emitted exactly when the field is explicitly set. -/
theorem preemption_emission_asymmetry (q : Queue) :
    (queueOwnFields q).countP isPreemptFromF = 1 ∧
    QField.preemptFrom (apfValue q) ∈ queueOwnFields q ∧
    (apfValue q = true ↔ q.allowPreemptionFrom = some true) ∧
    (∀ b, QField.preemptTo b ∈ queueOwnFields q ↔ q.allowPreemptionTo = some b) := by
  have hzW : (weightChunk q).countP isPreemptFromF = 0 :=
    countP_preemptFrom_zero (fun f hf => by obtain ⟨s, rfl⟩ := mem_weightChunk hf; rfl)
  have hzWR : (weightChunkRoot q).countP isPreemptFromF = 0 :=
    countP_preemptFrom_zero (fun f hf => by obtain ⟨s, rfl⟩ := mem_weightChunkRoot hf; rfl)
  have hzPol : (policyChunk q).countP isPreemptFromF = 0 :=
    countP_preemptFrom_zero (fun f hf => by obtain ⟨s, rfl⟩ := mem_policyChunk hf; rfl)
  have hzMin : (minResChunk q).countP isPreemptFromF = 0 :=
    countP_preemptFrom_zero (fun f hf => by obtain ⟨s, rfl⟩ := mem_minResChunk hf; rfl)
  have hzMax : (maxResChunk q).countP isPreemptFromF = 0 :=
    countP_preemptFrom_zero (fun f hf => by obtain ⟨s, rfl⟩ := mem_maxResChunk hf; rfl)
  have hzApps : (maxAppsChunk q).countP isPreemptFromF = 0 :=
    countP_preemptFrom_zero (fun f hf => by obtain ⟨s, rfl, -⟩ := mem_maxAppsChunk hf; rfl)
  have hzAm : (amShareChunk q).countP isPreemptFromF = 0 :=
    countP_preemptFrom_zero (fun f hf => by obtain ⟨s, rfl, -⟩ := mem_amShareChunk hf; rfl)
  have hzTo : (preemptToChunk q).countP isPreemptFromF = 0 :=
    countP_preemptFrom_zero (fun f hf => by obtain ⟨b, rfl⟩ := mem_preemptToChunk hf; rfl)
  have hzS : (aclSubmitChunk q).countP isPreemptFromF = 0 :=
    countP_preemptFrom_zero (fun f hf => by obtain ⟨s, rfl⟩ := mem_aclSubmitChunk hf; rfl)
  have hzA : (aclAdminChunk q).countP isPreemptFromF = 0 :=
    countP_preemptFrom_zero (fun f hf => by obtain ⟨s, rfl⟩ := mem_aclAdminChunk hf; rfl)
  refine ⟨?_, ?_, ?_, ?_⟩
  · unfold queueOwnFields
    by_cases hr : q.name = "root"
    · rw [if_pos hr]
      simp [List.countP_append, hzWR, hzPol, hzTo, List.countP_cons, isPreemptFromF]
    · rw [if_neg hr]
      simp [List.countP_append, hzW, hzPol, hzMin, hzMax, hzApps, hzAm, hzTo, hzS, hzA,
        List.countP_cons, isPreemptFromF]
  · unfold queueOwnFields
    by_cases hr : q.name = "root"
    · rw [if_pos hr]; simp [List.mem_append]
    · rw [if_neg hr]; simp [List.mem_append]
  · unfold apfValue truthyOptB
    rcases hw : q.allowPreemptionFrom with _ | b
    · simp
    · simp
  · intro b
    constructor
    · intro hmem
      rcases queueOwnFields_mem_cases hmem with
        hW | hWR | hPol | hMin | hMax | hApps | hAm | hPf | hTo | hS | hA
      · obtain ⟨s, hs⟩ := mem_weightChunk hW; simp at hs
      · obtain ⟨s, hs⟩ := mem_weightChunkRoot hWR; simp at hs
      · obtain ⟨s, hs⟩ := mem_policyChunk hPol; simp at hs
      · obtain ⟨s, hs⟩ := mem_minResChunk hMin; simp at hs
      · obtain ⟨s, hs⟩ := mem_maxResChunk hMax; simp at hs
      · obtain ⟨s, hs, -⟩ := mem_maxAppsChunk hApps; simp at hs
      · obtain ⟨s, hs, -⟩ := mem_amShareChunk hAm; simp at hs
      · simp at hPf
      · exact (preemptToChunk_mem_iff b q).mp hTo
      · obtain ⟨s, hs⟩ := mem_aclSubmitChunk hS; simp at hs
      · obtain ⟨s, hs⟩ := mem_aclAdminChunk hA; simp at hs
    · intro hsome
      have hm : QField.preemptTo b ∈ preemptToChunk q := (preemptToChunk_mem_iff b q).mpr hsome
      unfold queueOwnFields
      by_cases hr : q.name = "root"
      · rw [if_pos hr]
        exact List.mem_append.mpr (Or.inr hm)
      · rw [if_neg hr]
        exact List.mem_append.mpr (Or.inl (List.mem_append.mpr (Or.inl
          (List.mem_append.mpr (Or.inr hm)))))

theorem preemption_emission_asymmetry_witness :
    (queueOwnFields qBounds).countP isPreemptFromF = 1 ∧
    QField.preemptFrom (apfValue qBounds) ∈ queueOwnFields qBounds ∧
    (QField.preemptTo true ∈ queueOwnFields qBounds ↔
      qBounds.allowPreemptionTo = some true) := by
  have h := preemption_emission_asymmetry qBounds
  exact ⟨h.1, h.2.1, h.2.2.2 true⟩

/-- Claim C9: a bound set to `0` (`minMemory`, `minVcores`, `maxMemory`,
`maxVcores`, `maxRunningApps`, `maxAMShare`) is serialized exactly as an
absent bound: the generated field list is unchanged when `some 0` is
replaced by `none`, and no corresponding element is emitted. -/
theorem zero_bound_equals_absent (q : Queue) :
    (queueOwnFields { q with minMemory := some 0 } =
      queueOwnFields { q with minMemory := none }) ∧
    (queueOwnFields { q with minVcores := some 0 } =
      queueOwnFields { q with minVcores := none }) ∧
    (queueOwnFields { q with maxMemory := some 0 } =
      queueOwnFields { q with maxMemory := none }) ∧
    (queueOwnFields { q with maxVcores := some 0 } =
      queueOwnFields { q with maxVcores := none }) ∧
    (queueOwnFields { q with maxRunningApps := some 0 } =
      queueOwnFields { q with maxRunningApps := none }) ∧
    (queueOwnFields { q with maxAMShare := some jsZero } =
      queueOwnFields { q with maxAMShare := none }) ∧
    (∀ s, QField.maxApps s ∉ queueOwnFields { q with maxRunningApps := some 0 }) ∧
    (∀ s, QField.amShare s ∉ queueOwnFields { q with maxAMShare := some jsZero }) ∧
    (∀ s, QField.minRes s ∉ queueOwnFields { q with minMemory := some 0, minVcores := some 0 }) ∧
    (∀ s, QField.maxRes s ∉ queueOwnFields { q with maxMemory := some 0, maxVcores := some 0 }) := by
  refine ⟨rfl, rfl, rfl, rfl, rfl, rfl, ?_, ?_, ?_, ?_⟩
  · intro s hmem
    rcases queueOwnFields_mem_cases hmem with
      hW | hWR | hPol | hMin | hMax | hApps | hAm | hPf | hTo | hS | hA
    · obtain ⟨t, ht⟩ := mem_weightChunk hW; simp at ht
    · obtain ⟨t, ht⟩ := mem_weightChunkRoot hWR; simp at ht
    · obtain ⟨t, ht⟩ := mem_policyChunk hPol; simp at ht
    · obtain ⟨t, ht⟩ := mem_minResChunk hMin; simp at ht
    · obtain ⟨t, ht⟩ := mem_maxResChunk hMax; simp at ht
    · obtain ⟨t, ht, hc⟩ := mem_maxAppsChunk hApps; simp [truthyOptI] at hc
    · obtain ⟨t, ht, -⟩ := mem_amShareChunk hAm; simp at ht
    · simp at hPf
    · obtain ⟨b, hb⟩ := mem_preemptToChunk hTo; simp at hb
    · obtain ⟨t, ht⟩ := mem_aclSubmitChunk hS; simp at ht
    · obtain ⟨t, ht⟩ := mem_aclAdminChunk hA; simp at ht
  · intro s hmem
    rcases queueOwnFields_mem_cases hmem with
      hW | hWR | hPol | hMin | hMax | hApps | hAm | hPf | hTo | hS | hA
    · obtain ⟨t, ht⟩ := mem_weightChunk hW; simp at ht
    · obtain ⟨t, ht⟩ := mem_weightChunkRoot hWR; simp at ht
    · obtain ⟨t, ht⟩ := mem_policyChunk hPol; simp at ht
    · obtain ⟨t, ht⟩ := mem_minResChunk hMin; simp at ht
    · obtain ⟨t, ht⟩ := mem_maxResChunk hMax; simp at ht
    · obtain ⟨t, ht, -⟩ := mem_maxAppsChunk hApps; simp at ht
    · obtain ⟨t, ht, hc⟩ := mem_amShareChunk hAm; simp [truthyOptN, JsNum.isZero, jsZero] at hc
    · simp at hPf
    · obtain ⟨b, hb⟩ := mem_preemptToChunk hTo; simp at hb
    · obtain ⟨t, ht⟩ := mem_aclSubmitChunk hS; simp at ht
    · obtain ⟨t, ht⟩ := mem_aclAdminChunk hA; simp at ht
  · intro s hmem
    rcases queueOwnFields_mem_cases hmem with
      hW | hWR | hPol | hMin | hMax | hApps | hAm | hPf | hTo | hS | hA
    · obtain ⟨t, ht⟩ := mem_weightChunk hW; simp at ht
    · obtain ⟨t, ht⟩ := mem_weightChunkRoot hWR; simp at ht
    · obtain ⟨t, ht⟩ := mem_policyChunk hPol; simp at ht
    · have : minResChunk { q with minMemory := some 0, minVcores := some 0 } = [] := rfl
      rw [this] at hMin; simp at hMin
    · obtain ⟨t, ht⟩ := mem_maxResChunk hMax; simp at ht
    · obtain ⟨t, ht, -⟩ := mem_maxAppsChunk hApps; simp at ht
    · obtain ⟨t, ht, -⟩ := mem_amShareChunk hAm; simp at ht
    · simp at hPf
    · obtain ⟨b, hb⟩ := mem_preemptToChunk hTo; simp at hb
    · obtain ⟨t, ht⟩ := mem_aclSubmitChunk hS; simp at ht
    · obtain ⟨t, ht⟩ := mem_aclAdminChunk hA; simp at ht
  · intro s hmem
    rcases queueOwnFields_mem_cases hmem with
      hW | hWR | hPol | hMin | hMax | hApps | hAm | hPf | hTo | hS | hA
    · obtain ⟨t, ht⟩ := mem_weightChunk hW; simp at ht
    · obtain ⟨t, ht⟩ := mem_weightChunkRoot hWR; simp at ht
    · obtain ⟨t, ht⟩ := mem_policyChunk hPol; simp at ht
    · obtain ⟨t, ht⟩ := mem_minResChunk hMin; simp at ht
    · have : maxResChunk { q with maxMemory := some 0, maxVcores := some 0 } = [] := rfl
      rw [this] at hMax; simp at hMax
    · obtain ⟨t, ht, -⟩ := mem_maxAppsChunk hApps; simp at ht
    · obtain ⟨t, ht, -⟩ := mem_amShareChunk hAm; simp at ht
    · simp at hPf
    · obtain ⟨b, hb⟩ := mem_preemptToChunk hTo; simp at hb
    · obtain ⟨t, ht⟩ := mem_aclSubmitChunk hS; simp at ht
    · obtain ⟨t, ht⟩ := mem_aclAdminChunk hA; simp at ht

theorem zero_bound_equals_absent_witness :
    (queueOwnFields { qBounds with maxRunningApps := some 0 } =
      queueOwnFields { qBounds with maxRunningApps := none }) ∧
    QField.maxApps "0" ∉ queueOwnFields { qBounds with maxRunningApps := some 0 } := by
  have h := zero_bound_equals_absent qBounds
  exact ⟨h.2.2.2.2.1, h.2.2.2.2.2.2.1 "0"⟩

/-! ## Theorems: the parser -/

theorem processQueueList_nil (fu : Nat) (p : String) (acc : List ParsedQueue) :
    processQueueList fu [] p acc = .ok acc := by
  cases fu <;> rfl

theorem processQueueList_cons (fu : Nat) (x : JVal) (rest : List JVal) (p : String)
    (acc : List ParsedQueue) :
    processQueueList (Nat.succ fu) (x :: rest) p acc =
      match processQueue fu x p acc with
      | .error e => .error e
      | .ok acc1 => processQueueList fu rest p acc1 := rfl

/-- The walk only ever appends to its accumulator. -/
theorem processQueue_ok_extends (fu : Nat) :
    (∀ q p acc l, processQueue fu q p acc = .ok l → ∃ suf, l = acc ++ suf) ∧
    (∀ qs p acc l, processQueueList fu qs p acc = .ok l → ∃ suf, l = acc ++ suf) := by
  induction fu with
  | zero =>
    constructor
    · intro q p acc l h
      exact ⟨[], by rw [← Except.ok.inj h]; simp⟩
    · intro qs p acc l h
      exact ⟨[], by rw [← Except.ok.inj h]; simp⟩
  | succ n ih =>
    constructor
    · intro q p acc l h
      unfold processQueue at h
      split at h
      · exact ⟨[], by rw [← Except.ok.inj h]; simp⟩
      · split at h
        · exact ⟨[], by rw [← Except.ok.inj h]; simp⟩
        · split at h
          · exact absurd h (by simp)
          · split at h
            · exact absurd h (by simp)
            · split at h
              · split at h
                · obtain ⟨suf, hs⟩ := ih.2 _ _ _ _ h
                  exact ⟨_, by rw [hs, List.append_assoc]⟩
                · exact ⟨_, by rw [← Except.ok.inj h]⟩
              · exact ⟨_, by rw [← Except.ok.inj h]⟩
    · intro qs p acc l h
      cases qs with
      | nil =>
        rw [processQueueList_nil] at h
        exact ⟨[], by rw [← Except.ok.inj h]; simp⟩
      | cons x rest =>
        unfold processQueueList at h
        split at h
        · exact absurd h (by simp)
        · rename_i acc1 heq
          obtain ⟨s1, hs1⟩ := ih.1 _ _ _ _ heq
          obtain ⟨s2, hs2⟩ := ih.2 _ _ _ _ h
          exact ⟨s1 ++ s2, by rw [hs2, hs1, List.append_assoc]⟩

theorem resFieldOf_error {o : Option JVal} {e : String} (h : resFieldOf o = .error e) :
    e = typeErrorMsg := by
  rcases o with _ | v
  · exact absurd h (by simp [resFieldOf])
  · rcases v with s | l | kvs
    · simp only [resFieldOf] at h
      split at h
      · exact absurd h (by simp [jsMatchRes])
      · exact absurd h (by simp)
    · simp only [resFieldOf] at h
      split at h
      · exact (Except.error.inj h).symm
      · exact absurd h (by simp)
    · simp only [resFieldOf] at h
      split at h
      · exact (Except.error.inj h).symm
      · exact absurd h (by simp)

/-- The walk rejects only with the `TypeError` of a non-string resource
field. -/
theorem processQueue_error_msg (fu : Nat) :
    (∀ q p acc e, processQueue fu q p acc = .error e → e = typeErrorMsg) ∧
    (∀ qs p acc e, processQueueList fu qs p acc = .error e → e = typeErrorMsg) := by
  induction fu with
  | zero =>
    constructor
    · intro q p acc e h
      exact absurd h (by simp [processQueue])
    · intro qs p acc e h
      exact absurd h (by simp [processQueueList])
  | succ n ih =>
    constructor
    · intro q p acc e h
      unfold processQueue at h
      split at h
      · exact absurd h (by simp)
      · split at h
        · exact absurd h (by simp)
        · split at h
          · rename_i e2 heq
            rw [← Except.error.inj h]
            exact resFieldOf_error heq
          · split at h
            · rename_i e2 heq
              rw [← Except.error.inj h]
              exact resFieldOf_error heq
            · split at h
              · split at h
                · exact ih.2 _ _ _ _ h
                · exact absurd h (by simp)
              · exact absurd h (by simp)
    · intro qs p acc e h
      cases qs with
      | nil =>
        rw [processQueueList_nil] at h
        exact absurd h (by simp)
      | cons x rest =>
        unfold processQueueList at h
        split at h
        · rename_i e2 heq
          rw [← Except.error.inj h]
          exact ih.1 _ _ _ _ heq
        · exact ih.2 _ _ _ _ h

theorem parseQueuesFromXML_ok_red (s : String) (doc : JVal) (h : xml2jsParse s = .ok doc) :
    parseQueuesFromXML s = parseQueuesOfDoc s doc := by
  unfold parseQueuesFromXML
  rw [h]

theorem jTruthy_of_getOpt {o : Option JVal} {k : String} {v : JVal}
    (h : jGetOpt o k = some v) : jTruthy o = true := by
  rcases o with _ | w
  · simp [jGetOpt] at h
  · rcases w with s | l | kvs
    · simp [jGetOpt, jGet] at h
    · simp [jGetOpt, jGet] at h
    · rfl

theorem jToArr_of_not_arr {v : JVal} (h : isArrJ v = false) : jToArr v = [v] := by
  rcases v with s | l | kvs
  · rfl
  · simp [isArrJ] at h
  · rfl

theorem parseQueuesOfDoc_error_msg (s : String) (doc : JVal) (e : String)
    (h : parseQueuesOfDoc s doc = .error e) : e = typeErrorMsg := by
  unfold parseQueuesOfDoc at h
  split at h
  · exact absurd h (by simp)
  · split at h
    · exact absurd h (by simp)
    · split at h
      · exact absurd h (by simp)
      · exact (processQueue_error_msg _).2 _ _ _ _ h

/-- Claim C5 (amended): if a parsed document's top-level element has a
truthy `queue` child, any successful parse result starts with the
synthesized `root` record (default weight 1, policy `fair`, no parent);
if it has no such child (no queue children, or only degenerate empty
ones), the parse returns the empty list — no root is synthesized. -/
theorem root_synthesis_amended (s : String) (doc : JVal) (h : xml2jsParse s = .ok doc) :
    (jTruthy (jGetOpt (jGet doc "allocations") "queue") = true →
      ∀ l, parseQueuesFromXML s = .ok l → ∃ rest, l = rootQueueRecord :: rest) ∧
    (jTruthy (jGetOpt (jGet doc "allocations") "queue") = false →
      parseQueuesFromXML s = .ok []) := by
  have hred := parseQueuesFromXML_ok_red s doc h
  constructor
  · intro ht l hl
    rcases hv : jGetOpt (jGet doc "allocations") "queue" with _ | qv
    · rw [hv] at ht
      simp [jTruthy] at ht
    · have halloc : jTruthy (jGet doc "allocations") = true := jTruthy_of_getOpt hv
      rw [hred] at hl
      unfold parseQueuesOfDoc at hl
      rw [if_neg (by simp [halloc]), hv] at hl
      rw [hv] at ht
      have hl2 : (if jTruthy (some qv) = false then (.ok [] : Except String (List ParsedQueue))
          else processQueueList (s.length + 16) (jToArr qv) "root" [rootQueueRecord]) = .ok l := hl
      rw [if_neg (by simp [ht])] at hl2
      obtain ⟨suf, hsuf⟩ := (processQueue_ok_extends (s.length + 16)).2 _ _ _ _ hl2
      exact ⟨suf, by rw [hsuf]; rfl⟩
  · intro ht
    rw [hred]
    unfold parseQueuesOfDoc
    by_cases ha : jTruthy (jGet doc "allocations") = false
    · rw [if_pos ha]
    · rw [if_neg ha]
      rcases hv : jGetOpt (jGet doc "allocations") "queue" with _ | qv
      · rfl
      · rw [hv] at ht
        show (if jTruthy (some qv) = false then (.ok [] : Except String (List ParsedQueue))
          else processQueueList (s.length + 16) (jToArr qv) "root" [rootQueueRecord]) = .ok []
        rw [if_pos ht]

/-- Claim C5 counterexample: a well-formed document that does contain
queue elements — one nested inside a non-queue wrapper, one empty — yet
parses to the empty list, with no root synthesized. -/
theorem root_synthesis_counterexample :
    xml2jsParse c5doc = .ok c5docJ ∧ parseQueuesFromXML c5doc = .ok [] :=
  ⟨rfl, rfl⟩

theorem root_synthesis_amended_witness :
    (∃ rest, [rootQueueRecord, aNamedRecord] = rootQueueRecord :: rest) ∧
    parseQueuesFromXML "<allocations><x/></allocations>" = .ok [] := by
  constructor
  · exact (root_synthesis_amended docA docAJ rfl).1 rfl [rootQueueRecord, aNamedRecord] rfl
  · exact (root_synthesis_amended "<allocations><x/></allocations>"
      (JVal.obj [("allocations", JVal.obj [("x", JVal.str "")])]) rfl).2 rfl

/-- Claim C6 (amended): the parse call rejects exactly by forwarding the
markup error of the underlying parser, or with the `TypeError` of a
non-string resource field; a well-formed document lacking the top-level
`allocations` element is not rejected — it yields an empty queue list. -/
theorem parse_failure_characterization (s : String) :
    (∀ e, xml2jsParse s = .error e → parseQueuesFromXML s = .error e) ∧
    (∀ e, parseQueuesFromXML s = .error e → xml2jsParse s = .error e ∨ e = typeErrorMsg) ∧
    (∀ doc, xml2jsParse s = .ok doc → jGet doc "allocations" = none →
      parseQueuesFromXML s = .ok []) := by
  refine ⟨?_, ?_, ?_⟩
  · intro e he
    unfold parseQueuesFromXML
    rw [he]
  · intro e he
    cases hx : xml2jsParse s with
    | error e2 =>
      left
      unfold parseQueuesFromXML at he
      rw [hx] at he
      have h3 : (Except.error e2 : Except String (List ParsedQueue)) = .error e := he
      rw [Except.error.inj h3]
    | ok doc =>
      right
      unfold parseQueuesFromXML at he
      rw [hx] at he
      have h3 : parseQueuesOfDoc s doc = .error e := he
      exact parseQueuesOfDoc_error_msg s doc e h3
  · intro doc hx hnone
    rw [parseQueuesFromXML_ok_red s doc hx]
    unfold parseQueuesOfDoc
    rw [hnone]
    simp [jTruthy]

/-- Claim C6 counterexample: a well-formed document without the
top-level `allocations` element is not rejected; the parse succeeds with
an empty queue list. -/
theorem missing_allocations_not_rejected :
    xml2jsParse "<foo></foo>" = .ok (JVal.obj [("foo", JVal.str "")]) ∧
    parseQueuesFromXML "<foo></foo>" = .ok [] :=
  ⟨rfl, rfl⟩

theorem parse_failure_characterization_witness :
    parseQueuesFromXML "no markup here" = .error "xml: document must begin with an element" ∧
    parseQueuesFromXML "<bar/>" = .ok [] := by
  constructor
  · exact (parse_failure_characterization "no markup here").1
      "xml: document must begin with an element" rfl
  · exact (parse_failure_characterization "<bar/>").2.2
      (JVal.obj [("bar", JVal.str "")]) rfl rfl

/-- Claim C10: a queue element without a `name` attribute is skipped
silently — `processQueue` leaves the accumulator unchanged, so no record
is produced and its nested queue elements are never visited — and a
parse whose only top-level queue element is such an element still
succeeds, returning just the synthesized root. -/
theorem unnamed_queue_element_skipped (fu : Nat) (qx : JVal) (parentName : String)
    (acc : List ParsedQueue) (hname : jGetOpt (jGet qx "$") "name" = none) :
    processQueue fu qx parentName acc = .ok acc ∧
    (∀ s doc, xml2jsParse s = .ok doc →
      jGetOpt (jGet doc "allocations") "queue" = some qx →
      isArrJ qx = false → jTruthy (some qx) = true →
      parseQueuesFromXML s = .ok [rootQueueRecord]) := by
  have hq : queueNameOf qx = "" := by
    unfold queueNameOf
    rw [hname]
  have hskip : ∀ fu2 p2 acc2, processQueue fu2 qx p2 acc2 = .ok acc2 := by
    intro fu2 p2 acc2
    cases fu2 with
    | zero => rfl
    | succ n =>
      unfold processQueue
      by_cases h1 : jTruthy (some qx) = false
      · rw [if_pos h1]
      · rw [if_neg h1, if_pos hq]
  refine ⟨hskip fu parentName acc, ?_⟩
  intro s doc hx hv harr htr
  have halloc : jTruthy (jGet doc "allocations") = true := jTruthy_of_getOpt hv
  rw [parseQueuesFromXML_ok_red s doc hx]
  unfold parseQueuesOfDoc
  rw [if_neg (by simp [halloc]), hv]
  show (if jTruthy (some qx) = false then (.ok [] : Except String (List ParsedQueue))
    else processQueueList (s.length + 16) (jToArr qx) "root" [rootQueueRecord]) = _
  rw [if_neg (by simp [htr]), jToArr_of_not_arr harr]
  have hstep : s.length + 16 = Nat.succ (s.length + 15) := rfl
  rw [hstep, processQueueList_cons, hskip (s.length + 15) "root" [rootQueueRecord]]
  exact processQueueList_nil _ _ _

theorem unnamed_queue_element_skipped_witness :
    processQueue 5 qxUnnamed "root" [] = .ok [] ∧
    parseQueuesFromXML docUnnamed = .ok [rootQueueRecord] := by
  have h := unnamed_queue_element_skipped 5 qxUnnamed "root" [] rfl
  exact ⟨h.1, h.2 docUnnamed docUnnamedJ rfl rfl rfl rfl⟩

/-! ## Theorems: numeric literals and the round trip -/

/-- Claim C2 (amended): the parser stores only the numeric value — the
literals `"4.0"` and `"4"` both parse to the number 4 — and the
generator re-emits the canonical form `"4"` for either, so the decimal
point of the original literal is not preserved. -/
theorem weight_canonical_form (q : Queue) (h1 : q.name ≠ "root")
    (h2 : q.weight = some ⟨4, 1⟩) :
    parseFloatJS "4.0" = some ⟨4, 1⟩ ∧ parseFloatJS "4" = some ⟨4, 1⟩ ∧
    (queueOwnFields q).head? = some (QField.weight "4") := by
  refine ⟨rfl, rfl, ?_⟩
  unfold queueOwnFields
  rw [if_neg h1]
  unfold weightChunk
  rw [h2]
  simp only [List.cons_append, List.singleton_append, List.head?_cons]
  rfl

/-- Claim C2 counterexample: a weight parsed from the literal `"4.0"`
is re-emitted as `<weight>4</weight>`, and `"4.0"` does not occur as a
weight in the generated document. -/
theorem weight_literal_lost :
    parseQueuesFromXML weightDoc = .ok [rootQueueRecord, aWeightRecord] ∧
    strHasSub "<weight>4</weight>"
      (generateXMLFromQueues (List.map parsedAsQueue [rootQueueRecord, aWeightRecord]) none)
      = true ∧
    strHasSub "<weight>4.0"
      (generateXMLFromQueues (List.map parsedAsQueue [rootQueueRecord, aWeightRecord]) none)
      = false :=
  ⟨rfl, rfl, rfl⟩

theorem weight_canonical_form_witness :
    parseFloatJS "4.0" = some ⟨4, 1⟩ ∧ parseFloatJS "4" = some ⟨4, 1⟩ ∧
    (queueOwnFields (parsedAsQueue aWeightRecord)).head? = some (QField.weight "4") :=
  weight_canonical_form (parsedAsQueue aWeightRecord) (by decide) rfl

/-- Claim C1 counterexample: for the representative hierarchy `Q₀ =
[q0root, q0child]` (root plus one child with every optional field
populated) and settings `g0`, parsing `generate(Q₀, g0)` does not return
a queue set structurally equal to `Q₀` together with globals field-equal
to `g0`. -/
theorem roundTrip_not_identity :
    ¬ ((parseQueuesFromXML (generateXMLFromQueues [q0root, q0child] (some g0))).map
          (List.map parsedAsQueue) = .ok [q0root, q0child] ∧
       parseGlobalConfigFromXML (generateXMLFromQueues [q0root, q0child] (some g0)) =
          .ok g0) := by
  intro hcl
  have h1 : (parseQueuesFromXML (generateXMLFromQueues [q0root, q0child] (some g0))).map
      (List.map parsedAsQueue) =
      .ok (List.map parsedAsQueue [rootQueueRecord, dupRootRecord, analyticsRecord]) := rfl
  have h2 := hcl.1
  rw [h1] at h2
  have h3 := Except.ok.inj h2
  exact absurd h3 (by decide)

/-- Claim C1 (amended): parsing the generated document yields the
synthesized root, then a duplicate record for the root element (parented
to `"root"`, with the explicitly emitted `allowPreemptionFrom = false`),
then the child with every non-ACL field preserved and the ACL fields
absent; the re-parsed globals equal `g0` except that
`queueMaxAppsDefault` and `queueMaxAMShareDefault` — never emitted by
the generator — reset to their defaults. -/
theorem parse_generate_representative :
    parseQueuesFromXML (generateXMLFromQueues [q0root, q0child] (some g0)) =
      .ok [rootQueueRecord, dupRootRecord, analyticsRecord] ∧
    parseGlobalConfigFromXML (generateXMLFromQueues [q0root, q0child] (some g0)) =
      .ok { g0 with queueMaxAppsDefault := none, queueMaxAMShareDefault := none } :=
  ⟨rfl, rfl⟩

end YarnConfig
